import Mathlib

/-!
# Verification of the inkscape SVG layer/placeholder engine

Shallow embedding of the repository's source (src/lib.rs, src/parse.rs,
src/object.rs, src/error.rs) and proofs about the claims of its
specification.

The underlying XML tokenizer/serializer (the quick_xml crate) is an external
collaborator.  Following the spec's boundary description (§3, §6), it is
modelled as a stream of lexical events: open tag, close tag, self-closing
tag, other (raw verbatim payload) and end-of-stream.  A reader whose input
is exhausted keeps yielding the end-of-stream event and does not fail,
which is the documented behaviour of the actual library.  Attribute lists
are ordered sequences of (key, raw byte value) pairs; duplicates are kept.
-/

/-- Raw bytes (the `&[u8]` payloads of the XML layer), as a list of byte
values. -/
abbrev Bytes := List Nat

/-- Byte string literal helper: the bytes of an ASCII string literal such as
`b"style"` in the source. -/
def bs (s : String) : Bytes := s.toList.map Char.toNat

/-- One XML attribute: qualified name bytes and raw value bytes
(`quick_xml::events::attributes::Attribute`). -/
structure Attr where
  key : Bytes
  value : Bytes
  deriving DecidableEq

/-- An element header (`quick_xml::events::BytesStart`): element name and its
ordered attribute list. -/
structure BytesStart where
  name : Bytes
  atts : List Attr
  deriving DecidableEq

/-- A lexical event (`quick_xml::events::Event`).  `Start`/`End`/`Empty`/`Eof`
are the variants the source inspects; every other variant (Text, Comment,
CData, Decl, PI, DocType) is treated uniformly by the source and is modelled
as `other` with its verbatim payload. -/
inductive Event where
  | start (elem : BytesStart)
  | endTag (name : Bytes)
  | empty (elem : BytesStart)
  | other (raw : Bytes)
  | eof
  deriving DecidableEq

/-- Strict UTF-8 decoding of a byte list into code points, as performed by
Rust's `String::from_utf8` (rejects overlong forms, surrogates and values
above `0x10FFFF`). -/
def utf8DecodeAux : List Nat → Option (List Char)
  | [] => some []
  | b :: rest =>
    if b < 0x80 then
      (utf8DecodeAux rest).map (fun cs => Char.ofNat b :: cs)
    else if b < 0xC2 then
      none
    else if b < 0xE0 then
      match rest with
      | c1 :: rest2 =>
        if 0x80 ≤ c1 ∧ c1 < 0xC0 then
          (utf8DecodeAux rest2).map
            (fun cs => Char.ofNat ((b - 0xC0) * 64 + (c1 - 0x80)) :: cs)
        else none
      | [] => none
    else if b < 0xF0 then
      match rest with
      | c1 :: c2 :: rest2 =>
        if (if b = 0xE0 then 0xA0 else 0x80) ≤ c1 ∧
            c1 < (if b = 0xED then 0xA0 else 0xC0) ∧
            0x80 ≤ c2 ∧ c2 < 0xC0 then
          (utf8DecodeAux rest2).map
            (fun cs =>
              Char.ofNat ((b - 0xE0) * 4096 + (c1 - 0x80) * 64 + (c2 - 0x80)) :: cs)
        else none
      | _ => none
    else if b < 0xF5 then
      match rest with
      | c1 :: c2 :: c3 :: rest2 =>
        if (if b = 0xF0 then 0x90 else 0x80) ≤ c1 ∧
            c1 < (if b = 0xF4 then 0x90 else 0xC0) ∧
            0x80 ≤ c2 ∧ c2 < 0xC0 ∧ 0x80 ≤ c3 ∧ c3 < 0xC0 then
          (utf8DecodeAux rest2).map
            (fun cs =>
              Char.ofNat ((b - 0xF0) * 262144 + (c1 - 0x80) * 4096 +
                (c2 - 0x80) * 64 + (c3 - 0x80)) :: cs)
        else none
      | _ => none
    else none

/-- `String::from_utf8` on raw attribute bytes: `some` exactly on valid
UTF-8. -/
def utf8Decode (bytes : Bytes) : Option String :=
  (utf8DecodeAux bytes).map List.asString

/-- A 64-bit float value as produced by `str::parse::<f64>`.  The code never
performs arithmetic on these values — they are extracted from attributes and
passed through — so finite values are modelled as exact rationals; the
special values the Rust parser can produce are kept as separate
constructors. -/
inductive F64 where
  | finite (q : ℚ)
  | inf (neg : Bool)
  | nan
  deriving DecidableEq

/-- Digits to the natural number they denote. -/
def digitsToNat (ds : List Char) : Nat :=
  ds.foldl (fun acc c => acc * 10 + (c.toNat - 48)) 0

/-- The value of a parsed decimal literal. -/
def decValue (neg : Bool) (intPart fracPart : List Char) (eneg : Bool)
    (expDigits : List Char) : F64 :=
  let mantissa : ℚ :=
    (digitsToNat (intPart ++ fracPart) : ℚ) / (10 : ℚ) ^ fracPart.length
  let signed : ℚ := if neg then -mantissa else mantissa
  let e : Nat := digitsToNat expDigits
  .finite (if eneg then signed / (10 : ℚ) ^ e else signed * (10 : ℚ) ^ e)

/-- Parse the part after the optional sign of an f64 literal:
`Digits ['.' Digits?] | '.' Digits`, then an optional exponent
`('e'|'E') Sign? Digits`. -/
def parseDecimal (neg : Bool) (cs : List Char) : Option F64 :=
  let ip := cs.takeWhile Char.isDigit
  let cs1 := cs.dropWhile Char.isDigit
  let fp := match cs1 with
    | '.' :: r => r.takeWhile Char.isDigit
    | _ => []
  let cs2 := match cs1 with
    | '.' :: r => r.dropWhile Char.isDigit
    | _ => cs1
  if ip = [] ∧ fp = [] then none
  else
    match cs2 with
    | [] => some (decValue neg ip fp false [])
    | e :: r =>
      if e = 'e' ∨ e = 'E' then
        let (eneg, r2) : Bool × List Char := match r with
          | '+' :: rr => (false, rr)
          | '-' :: rr => (true, rr)
          | rr => (false, rr)
        let ed := r2.takeWhile Char.isDigit
        let r3 := r2.dropWhile Char.isDigit
        if ed = [] ∨ r3 ≠ [] then none
        else some (decValue neg ip fp eneg ed)
      else none

/-- `str::parse::<f64>()`: optional sign, then a case-insensitive special
word (`inf`, `infinity`, `nan`) or a decimal literal with optional
exponent.  `none` models `Err(ParseFloatError)`. -/
def parseF64 (s : String) : Option F64 :=
  let (neg, rest) : Bool × List Char := match s.toList with
    | '+' :: r => (false, r)
    | '-' :: r => (true, r)
    | r => (false, r)
  let lower := rest.map Char.toLower
  if lower = "inf".toList ∨ lower = "infinity".toList then some (.inf neg)
  else if lower = "nan".toList then some .nan
  else parseDecimal neg rest

/-! ## Error types (src/error.rs) -/

/-- Which identity field an extraction error refers to
(`error::DimensionOrId`). -/
inductive DimensionOrId where
  | width
  | height
  | id
  deriving DecidableEq

/-- `error::IdentifierError`.  `dimensionUtf8` and `dimensionParse` carry the
field tag of `DimensionUtf8` / `DimensionParse` (the wrapped library error
values carry no further structure relevant here);
`missingObjectIdentifier` carries the offending element and the partial
extraction state, as `MissingObjectIdentifier` does. -/
inductive IdentifierError where
  | dimensionUtf8 (dimension : DimensionOrId)
  | dimensionParse (dimension : DimensionOrId)
  | missingObjectIdentifier (element : BytesStart) (width height : Option F64)
      (id : Option String)
  deriving DecidableEq

/-- `error::MissingId`: lookup failure carrying the requested id. -/
structure MissingId where
  id : String
  deriving DecidableEq

/-- The parse-side failures of `error::ParseLayer`.  `panicked` models the
`panic!` the source executes in `parse::layers` when a `</text>` close tag
is met at the top level (a Rust panic aborts instead of returning, so it is
kept distinct from the returned error variants). -/
inductive ParseFailure where
  | missingLayerId (element : BytesStart)
  | missingLayerName (element : BytesStart)
  | parseObject (error : IdentifierError) (layerName : String)
  | missingLayerEnd (layerName : String)
  | panicked
  deriving DecidableEq

/-! ## Objects and identity extraction (src/object.rs) -/

/-- `object::Identifiers`: the identity triple of a placeholder element. -/
structure Identifiers where
  id : String
  width : F64
  height : F64
  deriving DecidableEq

/-- The scanning loop of `Identifiers::from_elem`: walk the attribute list
once, keeping the latest successfully parsed value for each of the three
keys; fail immediately when a value of a matched key does not decode or
parse.  Attributes with other keys are skipped (the source pre-filters them
out of the iterator).  Note the `height` parse failure is tagged with
`DimensionOrId::Width`, exactly as in object.rs line 166. -/
def Identifiers.fromElemGo (elem : BytesStart) :
    List Attr → Option F64 → Option F64 → Option String →
    Except IdentifierError Identifiers
  | [], width, height, id =>
    match width, height, id with
    | some w, some h, some i => .ok ⟨i, w, h⟩
    | w, h, i => .error (.missingObjectIdentifier elem w h i)
  | att :: rest, width, height, id =>
    if att.key = bs "width" then
      match utf8Decode att.value with
      | none => .error (.dimensionUtf8 .width)
      | some s =>
        match parseF64 s with
        | none => .error (.dimensionParse .width)
        | some v => Identifiers.fromElemGo elem rest (some v) height id
    else if att.key = bs "height" then
      match utf8Decode att.value with
      | none => .error (.dimensionUtf8 .height)
      | some s =>
        match parseF64 s with
        | none => .error (.dimensionParse .width)
        | some v => Identifiers.fromElemGo elem rest width (some v) id
    else if att.key = bs "id" then
      match utf8Decode att.value with
      | none => .error (.dimensionUtf8 .id)
      | some s => Identifiers.fromElemGo elem rest width height (some s)
    else
      Identifiers.fromElemGo elem rest width height id

/-- `Identifiers::from_elem`. -/
def Identifiers.from_elem (elem : BytesStart) :
    Except IdentifierError Identifiers :=
  Identifiers.fromElemGo elem elem.atts none none none

/-- `object::Object`: a classified element, or an opaque passthrough event.
The Rust `Rectangle` and `Image` structs are pairs of an `Identifiers` and
the element snapshot; they are inlined into the constructors. -/
inductive Object where
  | rectangle (ident : Identifiers) (element : BytesStart)
  | image (ident : Identifiers) (element : BytesStart)
  | other (event : Event)
  deriving DecidableEq

/-- `Object::into_event`: the event a stored object serializes as. -/
def Object.into_event : Object → Event
  | .rectangle _ element => .empty element
  | .image _ element => .empty element
  | .other event => event

/-- `object::EncodedImage`: the opaque, already-encoded image payload. -/
structure EncodedImage where
  base64_bytes : Bytes
  deriving DecidableEq

/-- `Rectangle::set_image` (the element transformation): rename the element
to `image`, drop `style` attributes, keep every other attribute in order,
and append the `xlink:href` payload attribute. -/
def set_image_element (element : BytesStart) (base64_encoded : EncodedImage) :
    BytesStart :=
  ⟨bs "image",
    element.atts.filter (fun a => a.key ≠ bs "style") ++
      [⟨bs "xlink:href", base64_encoded.base64_bytes⟩]⟩

/-- `Image::update_image` (the element transformation): keep the element
name, drop `xlink:href` attributes, keep every other attribute in order,
and append the fresh `xlink:href` payload attribute. -/
def update_image_element (element : BytesStart)
    (base64_encoded : EncodedImage) : BytesStart :=
  ⟨element.name,
    element.atts.filter (fun a => a.key ≠ bs "xlink:href") ++
      [⟨bs "xlink:href", base64_encoded.base64_bytes⟩]⟩

/-! ## Layers and the document (src/lib.rs) -/

/-- `Layer`. -/
structure Layer where
  id : String
  name : String
  header : Event
  content : List Object
  footer : Event
  deriving DecidableEq

/-- `Inkscape`: the document model. -/
structure Inkscape where
  leading_events : List Event
  layers : List Layer
  trailing_events : List Event
  deriving DecidableEq

/-- The style attribute `Layer::set_hidden` appends. -/
def styleAttr : Attr := ⟨bs "style", bs "display:none"⟩

/-- `Layer::set_visible`: rebuild the header with every `style` attribute
removed.  `none` models the `panic!` taken when the header is not a start
event (parsing always stores a start event there). -/
def Layer.set_visible (l : Layer) : Option Layer :=
  match l.header with
  | .start elem =>
    some { l with
      header := .start ⟨elem.name, elem.atts.filter (fun a => a.key ≠ bs "style")⟩ }
  | _ => none

/-- `Layer::set_hidden`: rebuild the header with every `style` attribute
removed and `style="display:none"` appended at the end. -/
def Layer.set_hidden (l : Layer) : Option Layer :=
  match l.header with
  | .start elem =>
    some { l with
      header := .start
        ⟨elem.name,
          elem.atts.filter (fun a => a.key ≠ bs "style") ++ [styleAttr]⟩ }
  | _ => none

/-- Calling `set_visible` on the i-th layer of a document through
`get_layers_mut`, as the callers do: only that entry of the layer list is
rebuilt. -/
def Inkscape.set_visible_at (doc : Inkscape) (i : Nat) : Option Inkscape :=
  match doc.layers.get? i with
  | none => none
  | some l => (l.set_visible).map fun l2 => { doc with layers := doc.layers.set i l2 }

/-- Calling `set_hidden` on the i-th layer of a document through
`get_layers_mut`. -/
def Inkscape.set_hidden_at (doc : Inkscape) (i : Nat) : Option Inkscape :=
  match doc.layers.get? i with
  | none => none
  | some l => (l.set_hidden).map fun l2 => { doc with layers := doc.layers.set i l2 }

/-- Whether `Inkscape::id_to_image` / `Inkscape::dimensions` match an object
against a requested id: `Rectangle` and `Image` match by their identity id,
`Other` never matches. -/
def matchesId (id : String) : Object → Bool
  | .rectangle ident _ => ident.id = id
  | .image ident _ => ident.id = id
  | .other _ => false

/-- The inner loop of `Inkscape::id_to_image` over one layer's content:
replace the first matching object in place (`Rectangle` is promoted through
`set_image`, `Image` is updated through `update_image`); `none` when the
layer holds no match. -/
def idToImageContent (id : String) (image : EncodedImage) :
    List Object → Option (List Object)
  | [] => none
  | .rectangle ident element :: rest =>
    if ident.id = id then
      some (.image ident (set_image_element element image) :: rest)
    else
      (idToImageContent id image rest).map (.rectangle ident element :: ·)
  | .image ident element :: rest =>
    if ident.id = id then
      some (.image ident (update_image_element element image) :: rest)
    else
      (idToImageContent id image rest).map (.image ident element :: ·)
  | .other e :: rest =>
    (idToImageContent id image rest).map (.other e :: ·)

/-- The outer loop of `Inkscape::id_to_image` over the layers. -/
def idToImageLayers (id : String) (image : EncodedImage) :
    List Layer → Option (List Layer)
  | [] => none
  | l :: rest =>
    match idToImageContent id image l.content with
    | some c => some ({ l with content := c } :: rest)
    | none => (idToImageLayers id image rest).map (l :: ·)

/-- `Inkscape::id_to_image`: the `&mut self` method as a state-passing
function; the second component is the document after the call (unchanged
when the id is missing). -/
def Inkscape.id_to_image (doc : Inkscape) (id : String) (image : EncodedImage) :
    Except MissingId Unit × Inkscape :=
  match idToImageLayers id image doc.layers with
  | some ls => (.ok (), { doc with layers := ls })
  | none => (.error ⟨id⟩, doc)

/-- The scanning loop of `Inkscape::dimensions` over one layer's content. -/
def dimensionsContent (id : String) : List Object → Option (F64 × F64)
  | [] => none
  | .rectangle ident _ :: rest =>
    if ident.id = id then some (ident.width, ident.height)
    else dimensionsContent id rest
  | .image ident _ :: rest =>
    if ident.id = id then some (ident.width, ident.height)
    else dimensionsContent id rest
  | .other _ :: rest => dimensionsContent id rest

/-- The outer loop of `Inkscape::dimensions`. -/
def dimensionsLayers (id : String) : List Layer → Option (F64 × F64)
  | [] => none
  | l :: rest =>
    match dimensionsContent id l.content with
    | some wh => some wh
    | none => dimensionsLayers id rest

/-- `Inkscape::dimensions` (it takes `&mut self` in the source but never
mutates, so it is a pure function here). -/
def Inkscape.dimensions (doc : Inkscape) (id : String) :
    Except MissingId (F64 × F64) :=
  match dimensionsLayers id doc.layers with
  | some wh => .ok wh
  | none => .error ⟨id⟩

/-- `Inkscape::write_svg`: the sequence of events replayed to the writer —
every leading event, then for each layer its header, its content objects
(via `Object::into_event`) and its footer, then every trailing event.  The
write-error wrapping of the source concerns only failures of the external
byte sink and is outside the event-level boundary. -/
def Inkscape.write_svg (doc : Inkscape) : List Event :=
  doc.leading_events ++
    (doc.layers.flatMap fun layer =>
      layer.header :: (layer.content.map Object.into_event ++ [layer.footer])) ++
    doc.trailing_events

/-! ## The id iterator (src/lib.rs, `IdIterator`) -/

/-- `IdIterator`: a cursor (layer index, object index) over a layer list. -/
structure IdIterator where
  curr_group_idx : Nat
  curr_group_object_idx : Nat
  groups : List Layer
  deriving DecidableEq

/-- `Inkscape::object_ids`: a fresh iterator over the document's layers,
starting at the first object of the first layer. -/
def Inkscape.object_ids (doc : Inkscape) : IdIterator :=
  ⟨0, 0, doc.layers⟩

/-- Total remaining size of a layer list: one step to leave each layer plus
one step per object. -/
def sumLen : List Layer → Nat
  | [] => 0
  | g :: rest => g.content.length + 1 + sumLen rest

/-- Content length of the layer at index `i`, `0` past the end. -/
def contentLenAt (gs : List Layer) (i : Nat) : Nat :=
  ((gs.get? i).map (fun g => g.content.length)).getD 0

/-- Termination measure for the iterator: steps remaining before the group
list is exhausted. -/
def IdIterator.measure (it : IdIterator) : Nat :=
  sumLen (it.groups.drop it.curr_group_idx) -
    min it.curr_group_object_idx (contentLenAt it.groups it.curr_group_idx)

theorem drop_of_get?_some {α : Type} (l : List α) (i : Nat) (a : α)
    (h : l.get? i = some a) : l.drop i = a :: l.drop (i + 1) := by
  have h1 : i < l.length := (List.get?_eq_some.mp h).1
  rw [List.drop_eq_getElem_cons h1]
  have h2 : l[i] = a := by
    have h3 := List.getElem?_eq_getElem h1
    rw [← List.get?_eq_getElem?, h] at h3
    exact (Option.some.inj h3).symm
  rw [h2]

theorem measure_bump_lt (it : IdIterator) (group : Layer)
    (h : it.groups.get? it.curr_group_idx = some group)
    (hj : it.curr_group_object_idx < group.content.length) :
    ({ it with curr_group_object_idx := it.curr_group_object_idx + 1 } :
      IdIterator).measure < it.measure := by
  have hd := drop_of_get?_some it.groups it.curr_group_idx group h
  unfold IdIterator.measure contentLenAt
  simp only [hd, h, sumLen]
  simp
  omega

theorem measure_advance_lt (it : IdIterator) (group : Layer)
    (h : it.groups.get? it.curr_group_idx = some group)
    (hj : group.content.length ≤ it.curr_group_object_idx) :
    ({ it with
        curr_group_idx := it.curr_group_idx + 1
        curr_group_object_idx := 0 } : IdIterator).measure < it.measure := by
  have hd := drop_of_get?_some it.groups it.curr_group_idx group h
  unfold IdIterator.measure contentLenAt
  simp only [hd, h, sumLen]
  simp
  omega

/-- `IdIterator::next` (`impl Iterator for IdIterator`): return the id under
the cursor when it is a `Rectangle` or an `Image` and step the object index;
step over `Other` objects; move to the next group when the current group's
content is exhausted; stop when the group list is exhausted. -/
def IdIterator.next (it : IdIterator) : Option (String × IdIterator) :=
  match h : it.groups.get? it.curr_group_idx with
  | none => none
  | some group =>
    match h2 : group.content.get? it.curr_group_object_idx with
    | some (.rectangle ident _) =>
      some (ident.id,
        { it with curr_group_object_idx := it.curr_group_object_idx + 1 })
    | some (.image ident _) =>
      some (ident.id,
        { it with curr_group_object_idx := it.curr_group_object_idx + 1 })
    | some (.other _) =>
      IdIterator.next
        { it with curr_group_object_idx := it.curr_group_object_idx + 1 }
    | none =>
      IdIterator.next
        { it with
          curr_group_idx := it.curr_group_idx + 1
          curr_group_object_idx := 0 }
termination_by it.measure
decreasing_by
  · exact measure_bump_lt it group h (List.get?_eq_some.mp h2).1
  · exact measure_advance_lt it group h (List.get?_eq_none.mp h2)

theorem IdIterator.next_measure_lt :
    ∀ (n : Nat) (it : IdIterator), it.measure ≤ n →
      ∀ s it2, it.next = some (s, it2) → it2.measure < it.measure := by
  intro n
  induction n with
  | zero =>
    intro it hle s it2 hnext
    rw [IdIterator.next] at hnext
    split at hnext
    · exact absurd hnext (by simp)
    · next group h =>
      split at hnext
      · next ident e h2 =>
        cases hnext
        exact absurd (measure_bump_lt it group h (List.get?_eq_some.mp h2).1)
          (by omega)
      · next ident e h2 =>
        cases hnext
        exact absurd (measure_bump_lt it group h (List.get?_eq_some.mp h2).1)
          (by omega)
      · next e h2 =>
        exact absurd (measure_bump_lt it group h (List.get?_eq_some.mp h2).1)
          (by omega)
      · next h2 =>
        exact absurd (measure_advance_lt it group h (List.get?_eq_none.mp h2))
          (by omega)
  | succ n ih =>
    intro it hle s it2 hnext
    rw [IdIterator.next] at hnext
    split at hnext
    · exact absurd hnext (by simp)
    · next group h =>
      split at hnext
      · next ident e h2 =>
        cases hnext
        exact measure_bump_lt it group h (List.get?_eq_some.mp h2).1
      · next ident e h2 =>
        cases hnext
        exact measure_bump_lt it group h (List.get?_eq_some.mp h2).1
      · next e h2 =>
        have hlt := measure_bump_lt it group h (List.get?_eq_some.mp h2).1
        exact lt_trans (ih _ (by omega) s it2 hnext) hlt
      · next h2 =>
        have hlt := measure_advance_lt it group h (List.get?_eq_none.mp h2)
        exact lt_trans (ih _ (by omega) s it2 hnext) hlt

theorem IdIterator.next_measure_lt' {it it2 : IdIterator} {s : String}
    (hnext : it.next = some (s, it2)) : it2.measure < it.measure :=
  IdIterator.next_measure_lt it.measure it le_rfl s it2 hnext

/-- Driving the iterator to exhaustion, as `collect` does in the source's
`id_iterator` test: the full sequence of ids yielded by repeated `next`
calls. -/
def IdIterator.toList (it : IdIterator) : List String :=
  match h : it.next with
  | none => []
  | some (s, it2) => s :: it2.toList
termination_by it.measure
decreasing_by exact IdIterator.next_measure_lt' h

/-! ## The parser (src/parse.rs) -/

/-- The event reader at the spec's tokenizer boundary (§3, §6):
`read_event_into` yields the next event of the stream; an exhausted stream
yields the end-of-stream event (and keeps doing so on every further call),
it does not fail. -/
def readEvent : List Event → Event × List Event
  | [] => (.eof, [])
  | e :: rest => (e, rest)

/-- `try_get_attribute`: first attribute whose qualified name equals the
given bytes. -/
def try_get_attribute (name : Bytes) (e : BytesStart) : Option Attr :=
  e.atts.find? (fun a => a.key = name)

/-- `parse::layer_name`: the first `inkscape:label` attribute, decoded as
UTF-8. -/
def parse.layer_name (layer_start_event : BytesStart) :
    Except ParseFailure String :=
  match layer_start_event.atts.find?
      (fun a => a.key = bs "inkscape:label") with
  | none => .error (.missingLayerName layer_start_event)
  | some att =>
    match utf8Decode att.value with
    | none => .error (.missingLayerName layer_start_event)
    | some n => .ok n

/-- `parse::object`: classify a self-closing element by name. -/
def parse.object (element : BytesStart) : Except IdentifierError Object :=
  if element.name = bs "image" then
    (Identifiers.from_elem element).map fun ident => .image ident element
  else if element.name = bs "rect" then
    (Identifiers.from_elem element).map fun ident => .rectangle ident element
  else .ok (.other (.empty element))

/-- The reading loop of `parse::leading_events`.  The loop in the source
exits only when the reader fails, which the event-stream collaborator never
does; reaching the end of the input therefore keeps appending end-of-stream
events forever, and the `(out, None)` return after the loop is
unreachable.  The `Option` is step fuel: `none` means the loop has not
returned within `fuel` reading steps (for every fuel, on divergent inputs).
-/
def parse.leading_events :
    Nat → List Event → Option (List Event × BytesStart × List Event)
  | 0, _ => none
  | fuel + 1, s =>
    match readEvent s with
    | (.start element, s2) =>
      if element.name = bs "g" then some ([], element, s2)
      else
        (parse.leading_events fuel s2).map
          (fun (out, g, rest) => (Event.start element :: out, g, rest))
    | (event, s2) =>
      (parse.leading_events fuel s2).map
        (fun (out, g, rest) => (event :: out, g, rest))

/-- The reading loop of `parse::trailing_events`: collect every event until
the end-of-stream event, which is dropped. -/
def parse.trailing_events_go : List Event → List Event
  | [] => []
  | e :: rest => if e = .eof then [] else e :: parse.trailing_events_go rest

/-- `parse::trailing_events`: the carried-over first trailing event followed
by everything up to end-of-stream. -/
def parse.trailing_events (first_trailing_event : Event) (s : List Event) :
    List Event :=
  first_trailing_event :: parse.trailing_events_go s

/-- The content loop of `parse::group`: self-closing events are classified
and collected; a `</g>` close tag is the footer and ends the layer; every
other event — including end-of-stream, which the source does not check for —
is wrapped as `Other` and collected.  As in `leading_events`, the
`MissingLayerEnd` return after the loop is reachable only through a reader
failure, which the event-stream model excludes; a stream that ends inside a
layer therefore never returns (`none` for every fuel). -/
def parse.group_go (name : String) :
    Nat → List Event →
      Option (Except ParseFailure (List Object × Event × List Event))
  | 0, _ => none
  | fuel + 1, s =>
    match readEvent s with
    | (.empty xml_object, s2) =>
      match parse.object xml_object with
      | .error err => some (.error (.parseObject err name))
      | .ok obj =>
        (parse.group_go name fuel s2).map
          (Except.map fun (content, footer, rest) =>
            (obj :: content, footer, rest))
    | (.endTag n, s2) =>
      if n = bs "g" then some (.ok ([], .endTag n, s2))
      else
        (parse.group_go name fuel s2).map
          (Except.map fun (content, footer, rest) =>
            (Object.other (.endTag n) :: content, footer, rest))
    | (event, s2) =>
      (parse.group_go name fuel s2).map
        (Except.map fun (content, footer, rest) =>
          (Object.other event :: content, footer, rest))

/-- `parse::group`: extract the required `id` and `inkscape:label`
attributes from the group's open tag, then collect the layer's content up
to the matching close tag. -/
def parse.group (fuel : Nat) (start_event : BytesStart) (s : List Event) :
    Option (Except ParseFailure (Layer × List Event)) :=
  match try_get_attribute (bs "id") start_event with
  | none => some (.error (.missingLayerId start_event))
  | some id_attribute =>
    match utf8Decode id_attribute.value with
    | none => some (.error (.missingLayerId start_event))
    | some id =>
      match parse.layer_name start_event with
      | .error e => some (.error e)
      | .ok name =>
        (parse.group_go name fuel s).map
          (Except.map fun (content, footer, rest) =>
            ({ id := id, name := name, header := .start start_event,
               content := content, footer := footer }, rest))

/-- The loop of `parse::layers` after the first group: a `<g>` start tag
opens the next layer; any other start tag or any close tag (except the
panicking `</text>`) ends the layer phase and is carried over as the first
trailing event; every other event — text, comments, self-closing elements,
end-of-stream — is read and silently discarded (parse.rs lines 70-97 have
no arm that retains it). -/
def parse.layers_go :
    Nat → List Event →
      Option (Except ParseFailure (List Layer × Event × List Event))
  | 0, _ => none
  | fuel + 1, s =>
    match readEvent s with
    | (.start element, s2) =>
      if element.name = bs "g" then
        match parse.group fuel element s2 with
        | none => none
        | some (.error e) => some (.error e)
        | some (.ok (grp, s3)) =>
          (parse.layers_go fuel s3).map
            (Except.map fun (out, ev, rest) => (grp :: out, ev, rest))
      else some (.ok ([], .start element, s2))
    | (.endTag n, s2) =>
      if n = bs "text" then some (.error .panicked)
      else some (.ok ([], .endTag n, s2))
    | (_, s2) => parse.layers_go fuel s2

/-- `parse::layers`: parse the first group, then the remaining groups. -/
def parse.layers (fuel : Nat) (first_layer_start : BytesStart)
    (s : List Event) :
    Option (Except ParseFailure (List Layer × Event × List Event)) :=
  match parse.group fuel first_layer_start s with
  | none => none
  | some (.error e) => some (.error e)
  | some (.ok (first_group, s2)) =>
    (parse.layers_go fuel s2).map
      (Except.map fun (out, ev, rest) => (first_group :: out, ev, rest))

/-- `Inkscape::parse_svg` driving the three phases.  The source's
`(vec![], None)` branch — no `<g>` start tag found — corresponds to
`parse.leading_events` exiting its loop without a group, which only a
reader failure can cause; in the event-stream model that phase either
finds a group or diverges, so `parse_svg` composes the phases behind the
shared fuel. -/
def Inkscape.parse_svg (fuel : Nat) (s : List Event) :
    Option (Except ParseFailure Inkscape) :=
  match parse.leading_events fuel s with
  | none => none
  | some (leading, firstGroup, s2) =>
    match parse.layers fuel firstGroup s2 with
    | none => none
    | some (.error e) => some (.error e)
    | some (.ok (layers, firstTrailing, s3)) =>
      some (.ok ⟨leading, layers, parse.trailing_events firstTrailing s3⟩)

/-! ## The spec's lookup, for comparison (§4.4 `findById`) -/

/-- The identity record of a classified object (`Other` carries none). -/
def identOf : Object → Option Identifiers
  | .rectangle ident _ => some ident
  | .image ident _ => some ident
  | .other _ => none

/-- `findById` as the spec words it: a linear scan over layers in document
order and over objects in order within each layer, matching only Rectangle
and Image objects by id and returning the first match.  Stated from the
spec's §4.4 so the code's lookup operations can be compared against it. -/
def findByIdSpec (doc : Inkscape) (id : String) : Option Object :=
  (doc.layers.flatMap fun l => l.content).find? (matchesId id)

/-- The ids of a content list's Rectangle and Image objects, in order. -/
def idsOfContent : List Object → List String
  | [] => []
  | .rectangle ident _ :: rest => ident.id :: idsOfContent rest
  | .image ident _ :: rest => ident.id :: idsOfContent rest
  | .other _ :: rest => idsOfContent rest

/-- The ids of every Rectangle and Image object across a layer list, in
document order. -/
def idsOfLayers : List Layer → List String
  | [] => []
  | g :: rest => idsOfContent g.content ++ idsOfLayers rest

/-! ## Claim C3 -/

/-- A `rect` element whose `height` value is not a number: the concrete
input on which the error mislabels the failing field. -/
def c3FailingElem : BytesStart :=
  ⟨bs "rect",
    [⟨bs "id", bs "rect1"⟩, ⟨bs "width", bs "10"⟩, ⟨bs "height", bs "abc"⟩]⟩

/-- C3: the claim states that a height value failing to parse as a number
yields an error naming the height field.  The code instead tags that error
with the width field (object.rs line 166 constructs
`DimensionParse::new(err, DimensionOrId::Width)` inside the height branch),
so extraction on `c3FailingElem` reports `width`, not `height`. -/
theorem c3_height_parse_failure_is_tagged_width :
    Identifiers.from_elem c3FailingElem = .error (.dimensionParse .width) ∧
    DimensionOrId.width ≠ DimensionOrId.height :=
  ⟨rfl, by decide⟩

/-! ## Claim C4 -/

/-- C4: `set_hidden` removes every `style` attribute and appends
`style="display:none"` at the end, keeping the remaining attributes in
order; it is idempotent; `set_visible` after `set_hidden` equals a plain
`set_visible`, whose header keeps exactly the non-style attributes (so no
style attribute remains); `set_visible` on a layer without style attributes
is a no-op. -/
theorem c4_set_hidden_set_visible (l : Layer) (elem : BytesStart)
    (h : l.header = .start elem) :
    (∃ lh, l.set_hidden = some lh ∧
      lh.header = .start ⟨elem.name,
        elem.atts.filter (fun a => a.key ≠ bs "style") ++ [styleAttr]⟩ ∧
      lh.set_hidden = some lh ∧
      lh.set_visible = l.set_visible) ∧
    (∃ lv, l.set_visible = some lv ∧
      lv.header = .start ⟨elem.name,
        elem.atts.filter (fun a => a.key ≠ bs "style")⟩ ∧
      (∀ a ∈ elem.atts.filter (fun a => a.key ≠ bs "style"),
        a.key ≠ bs "style")) ∧
    ((∀ a ∈ elem.atts, a.key ≠ bs "style") → l.set_visible = some l) := by
  obtain ⟨lid, lname, lheader, lcontent, lfooter⟩ := l
  simp only at h
  subst h
  have hfilter :
      ((elem.atts.filter (fun a => a.key ≠ bs "style") ++ [styleAttr]).filter
        (fun a => a.key ≠ bs "style")) =
        elem.atts.filter (fun a => a.key ≠ bs "style") := by
    rw [List.filter_append]
    have h1 : (elem.atts.filter (fun a => a.key ≠ bs "style")).filter
        (fun a => a.key ≠ bs "style") =
        elem.atts.filter (fun a => a.key ≠ bs "style") :=
      List.filter_eq_self.mpr (fun a ha => (List.mem_filter.mp ha).2)
    have h2 : ([styleAttr].filter (fun a : Attr => a.key ≠ bs "style")) = [] := by
      simp [styleAttr]
    rw [h1, h2, List.append_nil]
  refine ⟨⟨⟨lid, lname, .start ⟨elem.name,
      elem.atts.filter (fun a => a.key ≠ bs "style") ++ [styleAttr]⟩,
      lcontent, lfooter⟩, rfl, rfl, ?_, ?_⟩,
    ⟨⟨lid, lname, .start ⟨elem.name,
      elem.atts.filter (fun a => a.key ≠ bs "style")⟩, lcontent, lfooter⟩,
      rfl, rfl, ?_⟩, ?_⟩
  · simp [Layer.set_hidden, hfilter]
    rfl
  · simp [Layer.set_visible, hfilter]
    rfl
  · intro a ha
    have hmem := (List.mem_filter.mp ha).2
    simpa using hmem
  · intro hall
    have hfeq : elem.atts.filter (fun a => !decide (a.key = bs "style")) =
        elem.atts :=
      List.filter_eq_self.mpr (fun a ha => by simpa using hall a ha)
    simp [Layer.set_visible, hfeq]

/-- A concrete layer header carrying a style attribute, for the C4
witness. -/
def c4Elem : BytesStart :=
  ⟨bs "g", [⟨bs "id", bs "layer1"⟩, ⟨bs "style", bs "display:none"⟩,
    ⟨bs "inkscape:label", bs "Layer 1"⟩]⟩

/-- A concrete layer for the C4 and C10 witnesses. -/
def c4Layer : Layer :=
  ⟨"layer1", "Layer 1", .start c4Elem, [], .endTag (bs "g")⟩

/-- Witness for C4 at a concrete layer. -/
theorem c4_set_hidden_set_visible_witness :
    c4Layer.header = .start c4Elem ∧
    (∃ lh, c4Layer.set_hidden = some lh ∧ lh.set_hidden = some lh ∧
      lh.set_visible = c4Layer.set_visible) :=
  ⟨rfl, match c4_set_hidden_set_visible c4Layer c4Elem rfl with
    | ⟨⟨lh, h1, _, h3, h4⟩, _, _⟩ => ⟨lh, h1, h3, h4⟩⟩

/-! ## Claim C10 -/

/-- C10: `set_hidden` and `set_visible` on one layer touch only that layer's
header attribute list — the layer's id, name, content and footer, the other
layers, and the document's leading and trailing event sequences are all
unchanged; the header keeps its element name. -/
theorem c10_visibility_frame (doc : Inkscape) (i : Nat) (l : Layer)
    (elem : BytesStart) (hl : doc.layers.get? i = some l)
    (hh : l.header = .start elem) :
    (∃ doc2, doc.set_hidden_at i = some doc2 ∧
      doc2.leading_events = doc.leading_events ∧
      doc2.trailing_events = doc.trailing_events ∧
      doc2.layers.length = doc.layers.length ∧
      (∀ j, j ≠ i → doc2.layers.get? j = doc.layers.get? j) ∧
      (∃ l2 atts2, doc2.layers.get? i = some l2 ∧
        l2.id = l.id ∧ l2.name = l.name ∧ l2.content = l.content ∧
        l2.footer = l.footer ∧ l2.header = .start ⟨elem.name, atts2⟩)) ∧
    (∃ doc2, doc.set_visible_at i = some doc2 ∧
      doc2.leading_events = doc.leading_events ∧
      doc2.trailing_events = doc.trailing_events ∧
      doc2.layers.length = doc.layers.length ∧
      (∀ j, j ≠ i → doc2.layers.get? j = doc.layers.get? j) ∧
      (∃ l2 atts2, doc2.layers.get? i = some l2 ∧
        l2.id = l.id ∧ l2.name = l.name ∧ l2.content = l.content ∧
        l2.footer = l.footer ∧ l2.header = .start ⟨elem.name, atts2⟩)) := by
  have hlen : i < doc.layers.length := (List.get?_eq_some.mp hl).1
  obtain ⟨lid, lname, lheader, lcontent, lfooter⟩ := l
  simp only at hh
  subst hh
  constructor
  · refine ⟨{ doc with layers := (doc.layers.set i
      ⟨lid, lname, .start ⟨elem.name,
        elem.atts.filter (fun a => a.key ≠ bs "style") ++ [styleAttr]⟩,
        lcontent, lfooter⟩) }, ?_, rfl, rfl, by simp, ?_, ?_⟩
    · unfold Inkscape.set_hidden_at
      rw [hl]
      rfl
    · intro j hji
      exact List.get?_set_ne _ _ (fun heq => hji heq.symm)
    · exact ⟨_, _, List.get?_set_eq_of_lt _ hlen, rfl, rfl, rfl, rfl, rfl⟩
  · refine ⟨{ doc with layers := (doc.layers.set i
      ⟨lid, lname, .start ⟨elem.name,
        elem.atts.filter (fun a => a.key ≠ bs "style")⟩,
        lcontent, lfooter⟩) }, ?_, rfl, rfl, by simp, ?_, ?_⟩
    · unfold Inkscape.set_visible_at
      rw [hl]
      rfl
    · intro j hji
      exact List.get?_set_ne _ _ (fun heq => hji heq.symm)
    · exact ⟨_, _, List.get?_set_eq_of_lt _ hlen, rfl, rfl, rfl, rfl, rfl⟩

/-- A concrete one-layer document for the C10 witness. -/
def c10Doc : Inkscape :=
  ⟨[.other (bs "prologue")], [c4Layer], [.other (bs "epilogue")]⟩

/-- Witness for C10 at a concrete document. -/
theorem c10_visibility_frame_witness :
    c10Doc.layers.get? 0 = some c4Layer ∧
    c4Layer.header = .start c4Elem ∧
    (∃ doc2, c10Doc.set_hidden_at 0 = some doc2 ∧
      doc2.leading_events = c10Doc.leading_events ∧
      doc2.trailing_events = c10Doc.trailing_events) :=
  ⟨rfl, rfl, match c10_visibility_frame c10Doc 0 c4Layer c4Elem rfl rfl with
    | ⟨⟨doc2, h1, h2, h3, _⟩, _⟩ => ⟨doc2, h1, h2, h3⟩⟩

/-! ## Claim C2 -/

/-- Validity of one attribute for identity extraction: a `width` or `height`
attribute must decode as UTF-8 and parse as a number, an `id` attribute must
decode as UTF-8; attributes with other keys are unconstrained (the scan
skips them). -/
def attOk (a : Attr) : Prop :=
  ((a.key = bs "width" ∨ a.key = bs "height") →
    ∃ s v, utf8Decode a.value = some s ∧ parseF64 s = some v) ∧
  (a.key = bs "id" → ∃ s, utf8Decode a.value = some s)

/-- An element carries an attribute with the given key. -/
def hasKey (k : Bytes) (e : BytesStart) : Prop := ∃ a ∈ e.atts, a.key = k

theorem attOk_of_unmatched (a : Attr) (hw : ¬ a.key = bs "width")
    (hh : ¬ a.key = bs "height") (hi : ¬ a.key = bs "id") : attOk a :=
  ⟨fun hk => absurd hk (by simp [hw, hh]), fun hk => absurd hk hi⟩

theorem fromElemGo_ok (elem : BytesStart) :
    ∀ (atts : List Attr) (w h : Option F64) (i : Option String),
      (∀ a ∈ atts, attOk a) →
      (w.isSome ∨ ∃ a ∈ atts, a.key = bs "width") →
      (h.isSome ∨ ∃ a ∈ atts, a.key = bs "height") →
      (i.isSome ∨ ∃ a ∈ atts, a.key = bs "id") →
      ∃ ident, Identifiers.fromElemGo elem atts w h i = .ok ident := by
  intro atts
  induction atts with
  | nil =>
    intro w h i _ hw hh hi
    obtain ⟨wv, rfl⟩ : ∃ wv, w = some wv := by
      rcases hw with hw | ⟨a, ha, _⟩
      · exact Option.isSome_iff_exists.mp hw
      · exact absurd ha (List.not_mem_nil a)
    obtain ⟨hv, rfl⟩ : ∃ hv, h = some hv := by
      rcases hh with hh | ⟨a, ha, _⟩
      · exact Option.isSome_iff_exists.mp hh
      · exact absurd ha (List.not_mem_nil a)
    obtain ⟨iv, rfl⟩ : ∃ iv, i = some iv := by
      rcases hi with hi | ⟨a, ha, _⟩
      · exact Option.isSome_iff_exists.mp hi
      · exact absurd ha (List.not_mem_nil a)
    exact ⟨⟨iv, wv, hv⟩, rfl⟩
  | cons a rest ih =>
    intro w h i hok hw hh hi
    have hokrest : ∀ b ∈ rest, attOk b := fun b hb => hok b (List.mem_cons_of_mem a hb)
    by_cases hkw : a.key = bs "width"
    · obtain ⟨s, v, hdec, hparse⟩ := (hok a (List.mem_cons_self a rest)).1 (Or.inl hkw)
      have hstep : Identifiers.fromElemGo elem (a :: rest) w h i =
          Identifiers.fromElemGo elem rest (some v) h i := by
        simp only [Identifiers.fromElemGo]
        rw [if_pos hkw]
        simp only [hdec, hparse]
      rw [hstep]
      refine ih (some v) h i hokrest (Or.inl rfl) ?_ ?_
      · rcases hh with hh | ⟨b, hb, hbk⟩
        · exact Or.inl hh
        · rcases List.mem_cons.mp hb with rfl | hb2
          · exact absurd (hkw ▸ hbk) (by decide)
          · exact Or.inr ⟨b, hb2, hbk⟩
      · rcases hi with hi | ⟨b, hb, hbk⟩
        · exact Or.inl hi
        · rcases List.mem_cons.mp hb with rfl | hb2
          · exact absurd (hkw ▸ hbk) (by decide)
          · exact Or.inr ⟨b, hb2, hbk⟩
    · by_cases hkh : a.key = bs "height"
      · obtain ⟨s, v, hdec, hparse⟩ := (hok a (List.mem_cons_self a rest)).1 (Or.inr hkh)
        have hstep : Identifiers.fromElemGo elem (a :: rest) w h i =
            Identifiers.fromElemGo elem rest w (some v) i := by
          simp only [Identifiers.fromElemGo]
          rw [if_neg hkw, if_pos hkh]
          simp only [hdec, hparse]
        rw [hstep]
        refine ih w (some v) i hokrest ?_ (Or.inl rfl) ?_
        · rcases hw with hw | ⟨b, hb, hbk⟩
          · exact Or.inl hw
          · rcases List.mem_cons.mp hb with rfl | hb2
            · exact absurd (hkh ▸ hbk) (by decide)
            · exact Or.inr ⟨b, hb2, hbk⟩
        · rcases hi with hi | ⟨b, hb, hbk⟩
          · exact Or.inl hi
          · rcases List.mem_cons.mp hb with rfl | hb2
            · exact absurd (hkh ▸ hbk) (by decide)
            · exact Or.inr ⟨b, hb2, hbk⟩
      · by_cases hki : a.key = bs "id"
        · obtain ⟨s, hdec⟩ := (hok a (List.mem_cons_self a rest)).2 hki
          have hstep : Identifiers.fromElemGo elem (a :: rest) w h i =
              Identifiers.fromElemGo elem rest w h (some s) := by
            simp only [Identifiers.fromElemGo]
            rw [if_neg hkw, if_neg hkh, if_pos hki]
            simp only [hdec]
          rw [hstep]
          refine ih w h (some s) hokrest ?_ ?_ (Or.inl rfl)
          · rcases hw with hw | ⟨b, hb, hbk⟩
            · exact Or.inl hw
            · rcases List.mem_cons.mp hb with rfl | hb2
              · exact absurd (hki ▸ hbk) (by decide)
              · exact Or.inr ⟨b, hb2, hbk⟩
          · rcases hh with hh | ⟨b, hb, hbk⟩
            · exact Or.inl hh
            · rcases List.mem_cons.mp hb with rfl | hb2
              · exact absurd (hki ▸ hbk) (by decide)
              · exact Or.inr ⟨b, hb2, hbk⟩
        · have hstep : Identifiers.fromElemGo elem (a :: rest) w h i =
              Identifiers.fromElemGo elem rest w h i := by
            simp only [Identifiers.fromElemGo]
            rw [if_neg hkw, if_neg hkh, if_neg hki]
          rw [hstep]
          refine ih w h i hokrest ?_ ?_ ?_
          · rcases hw with hw | ⟨b, hb, hbk⟩
            · exact Or.inl hw
            · rcases List.mem_cons.mp hb with rfl | hb2
              · exact absurd hbk hkw
              · exact Or.inr ⟨b, hb2, hbk⟩
          · rcases hh with hh | ⟨b, hb, hbk⟩
            · exact Or.inl hh
            · rcases List.mem_cons.mp hb with rfl | hb2
              · exact absurd hbk hkh
              · exact Or.inr ⟨b, hb2, hbk⟩
          · rcases hi with hi | ⟨b, hb, hbk⟩
            · exact Or.inl hi
            · rcases List.mem_cons.mp hb with rfl | hb2
              · exact absurd hbk hki
              · exact Or.inr ⟨b, hb2, hbk⟩

theorem fromElemGo_error (elem : BytesStart) :
    ∀ (atts : List Attr) (w h : Option F64) (i : Option String),
      ((∃ a ∈ atts, ¬ attOk a) ∨
        (w = none ∧ ¬ ∃ a ∈ atts, a.key = bs "width") ∨
        (h = none ∧ ¬ ∃ a ∈ atts, a.key = bs "height") ∨
        (i = none ∧ ¬ ∃ a ∈ atts, a.key = bs "id")) →
      ∃ err, Identifiers.fromElemGo elem atts w h i = .error err := by
  intro atts
  induction atts with
  | nil =>
    intro w h i hbad
    rcases hbad with ⟨a, ha, _⟩ | ⟨rfl, _⟩ | ⟨rfl, _⟩ | ⟨rfl, _⟩
    · exact absurd ha (List.not_mem_nil a)
    · cases h <;> cases i <;> exact ⟨_, rfl⟩
    · cases w <;> cases i <;> exact ⟨_, rfl⟩
    · cases w <;> cases h <;> exact ⟨_, rfl⟩
  | cons a rest ih =>
    intro w h i hbad
    by_cases hkw : a.key = bs "width"
    · rcases hdec : utf8Decode a.value with _ | s
      · refine ⟨.dimensionUtf8 .width, ?_⟩
        simp only [Identifiers.fromElemGo]
        rw [if_pos hkw]
        simp only [hdec]
      · rcases hparse : parseF64 s with _ | v
        · refine ⟨.dimensionParse .width, ?_⟩
          simp only [Identifiers.fromElemGo]
          rw [if_pos hkw]
          simp only [hdec, hparse]
        · have hstep : Identifiers.fromElemGo elem (a :: rest) w h i =
              Identifiers.fromElemGo elem rest (some v) h i := by
            simp only [Identifiers.fromElemGo]
            rw [if_pos hkw]
            simp only [hdec, hparse]
          rw [hstep]
          refine ih (some v) h i ?_
          have haok : attOk a := by
            constructor
            · intro _
              exact ⟨s, v, hdec, hparse⟩
            · intro hki
              exact absurd (hkw ▸ hki) (by decide)
          rcases hbad with ⟨b, hb, hnb⟩ | ⟨_, hnw⟩ | ⟨rfl, hnh⟩ | ⟨rfl, hni⟩
          · rcases List.mem_cons.mp hb with rfl | hb2
            · exact absurd haok hnb
            · exact Or.inl ⟨b, hb2, hnb⟩
          · exact absurd ⟨a, List.mem_cons_self a rest, hkw⟩ hnw
          · exact Or.inr (Or.inr (Or.inl ⟨rfl,
              fun ⟨b, hb2, hbk⟩ => hnh ⟨b, List.mem_cons_of_mem a hb2, hbk⟩⟩))
          · exact Or.inr (Or.inr (Or.inr ⟨rfl,
              fun ⟨b, hb2, hbk⟩ => hni ⟨b, List.mem_cons_of_mem a hb2, hbk⟩⟩))
    · by_cases hkh : a.key = bs "height"
      · rcases hdec : utf8Decode a.value with _ | s
        · refine ⟨.dimensionUtf8 .height, ?_⟩
          simp only [Identifiers.fromElemGo]
          rw [if_neg hkw, if_pos hkh]
          simp only [hdec]
        · rcases hparse : parseF64 s with _ | v
          · refine ⟨.dimensionParse .width, ?_⟩
            simp only [Identifiers.fromElemGo]
            rw [if_neg hkw, if_pos hkh]
            simp only [hdec, hparse]
          · have hstep : Identifiers.fromElemGo elem (a :: rest) w h i =
                Identifiers.fromElemGo elem rest w (some v) i := by
              simp only [Identifiers.fromElemGo]
              rw [if_neg hkw, if_pos hkh]
              simp only [hdec, hparse]
            rw [hstep]
            refine ih w (some v) i ?_
            have haok : attOk a := by
              constructor
              · intro _
                exact ⟨s, v, hdec, hparse⟩
              · intro hki
                exact absurd (hkh ▸ hki) (by decide)
            rcases hbad with ⟨b, hb, hnb⟩ | ⟨rfl, hnw⟩ | ⟨_, hnh⟩ | ⟨rfl, hni⟩
            · rcases List.mem_cons.mp hb with rfl | hb2
              · exact absurd haok hnb
              · exact Or.inl ⟨b, hb2, hnb⟩
            · exact Or.inr (Or.inl ⟨rfl,
                fun ⟨b, hb2, hbk⟩ => hnw ⟨b, List.mem_cons_of_mem a hb2, hbk⟩⟩)
            · exact absurd ⟨a, List.mem_cons_self a rest, hkh⟩ hnh
            · exact Or.inr (Or.inr (Or.inr ⟨rfl,
                fun ⟨b, hb2, hbk⟩ => hni ⟨b, List.mem_cons_of_mem a hb2, hbk⟩⟩))
      · by_cases hki : a.key = bs "id"
        · rcases hdec : utf8Decode a.value with _ | s
          · refine ⟨.dimensionUtf8 .id, ?_⟩
            simp only [Identifiers.fromElemGo]
            rw [if_neg hkw, if_neg hkh, if_pos hki]
            simp only [hdec]
          · have hstep : Identifiers.fromElemGo elem (a :: rest) w h i =
                Identifiers.fromElemGo elem rest w h (some s) := by
              simp only [Identifiers.fromElemGo]
              rw [if_neg hkw, if_neg hkh, if_pos hki]
              simp only [hdec]
            rw [hstep]
            refine ih w h (some s) ?_
            have haok : attOk a := by
              constructor
              · intro hk
                rcases hk with hk | hk
                · exact absurd (hki ▸ hk) (by decide)
                · exact absurd (hki ▸ hk) (by decide)
              · intro _
                exact ⟨s, hdec⟩
            rcases hbad with ⟨b, hb, hnb⟩ | ⟨rfl, hnw⟩ | ⟨rfl, hnh⟩ | ⟨_, hni⟩
            · rcases List.mem_cons.mp hb with rfl | hb2
              · exact absurd haok hnb
              · exact Or.inl ⟨b, hb2, hnb⟩
            · exact Or.inr (Or.inl ⟨rfl,
                fun ⟨b, hb2, hbk⟩ => hnw ⟨b, List.mem_cons_of_mem a hb2, hbk⟩⟩)
            · exact Or.inr (Or.inr (Or.inl ⟨rfl,
                fun ⟨b, hb2, hbk⟩ => hnh ⟨b, List.mem_cons_of_mem a hb2, hbk⟩⟩))
            · exact absurd ⟨a, List.mem_cons_self a rest, hki⟩ hni
        · have hstep : Identifiers.fromElemGo elem (a :: rest) w h i =
              Identifiers.fromElemGo elem rest w h i := by
            simp only [Identifiers.fromElemGo]
            rw [if_neg hkw, if_neg hkh, if_neg hki]
          rw [hstep]
          refine ih w h i ?_
          rcases hbad with ⟨b, hb, hnb⟩ | ⟨rfl, hnw⟩ | ⟨rfl, hnh⟩ | ⟨rfl, hni⟩
          · rcases List.mem_cons.mp hb with rfl | hb2
            · exact absurd (attOk_of_unmatched b hkw hkh hki) hnb
            · exact Or.inl ⟨b, hb2, hnb⟩
          · exact Or.inr (Or.inl ⟨rfl,
              fun ⟨b, hb2, hbk⟩ => hnw ⟨b, List.mem_cons_of_mem a hb2, hbk⟩⟩)
          · exact Or.inr (Or.inr (Or.inl ⟨rfl,
              fun ⟨b, hb2, hbk⟩ => hnh ⟨b, List.mem_cons_of_mem a hb2, hbk⟩⟩))
          · exact Or.inr (Or.inr (Or.inr ⟨rfl,
              fun ⟨b, hb2, hbk⟩ => hni ⟨b, List.mem_cons_of_mem a hb2, hbk⟩⟩))

/-- C2: for a self-closing element named `rect` or `image` whose width,
height and id attributes are all present and valid, the classifier returns
a Rectangle resp. Image wrapping the original element; if any of the three
is absent, or any attribute under those keys fails to decode or parse,
classification fails with an identity error — it never returns `Other` for
those names; any other element name yields `Other` wrapping the original
event, and no error is possible. -/
theorem c2_classifier (element : BytesStart) :
    (element.name = bs "rect" → (∀ a ∈ element.atts, attOk a) →
      hasKey (bs "width") element → hasKey (bs "height") element →
      hasKey (bs "id") element →
      ∃ ident, parse.object element = .ok (.rectangle ident element)) ∧
    (element.name = bs "image" → (∀ a ∈ element.atts, attOk a) →
      hasKey (bs "width") element → hasKey (bs "height") element →
      hasKey (bs "id") element →
      ∃ ident, parse.object element = .ok (.image ident element)) ∧
    ((element.name = bs "rect" ∨ element.name = bs "image") →
      (¬ hasKey (bs "width") element ∨ ¬ hasKey (bs "height") element ∨
        ¬ hasKey (bs "id") element ∨ ∃ a ∈ element.atts, ¬ attOk a) →
      ∃ err, parse.object element = .error err) ∧
    ((element.name = bs "rect" ∨ element.name = bs "image") →
      ∀ ev, parse.object element ≠ .ok (.other ev)) ∧
    (element.name ≠ bs "rect" → element.name ≠ bs "image" →
      parse.object element = .ok (.other (.empty element))) := by
  have herr :
      (¬ hasKey (bs "width") element ∨ ¬ hasKey (bs "height") element ∨
        ¬ hasKey (bs "id") element ∨ ∃ a ∈ element.atts, ¬ attOk a) →
      ∃ err, Identifiers.from_elem element = .error err := by
    intro hmiss
    refine fromElemGo_error element element.atts none none none ?_
    rcases hmiss with hm | hm | hm | hm
    · exact Or.inr (Or.inl ⟨rfl, hm⟩)
    · exact Or.inr (Or.inr (Or.inl ⟨rfl, hm⟩))
    · exact Or.inr (Or.inr (Or.inr ⟨rfl, hm⟩))
    · exact Or.inl hm
  refine ⟨?_, ?_, ?_, ?_, ?_⟩
  · intro hname hok hw hh hi
    obtain ⟨ident, hident⟩ :=
      fromElemGo_ok element element.atts none none none hok
        (Or.inr hw) (Or.inr hh) (Or.inr hi)
    refine ⟨ident, ?_⟩
    simp [parse.object, hname, Identifiers.from_elem, hident, Except.map,
      (by decide : ¬ (bs "rect" = bs "image"))]
  · intro hname hok hw hh hi
    obtain ⟨ident, hident⟩ :=
      fromElemGo_ok element element.atts none none none hok
        (Or.inr hw) (Or.inr hh) (Or.inr hi)
    refine ⟨ident, ?_⟩
    simp [parse.object, hname, Identifiers.from_elem, hident, Except.map]
  · intro hname hmiss
    obtain ⟨err, herr2⟩ := herr hmiss
    rcases hname with hname | hname
    · exact ⟨err, by
        simp [parse.object, hname, Identifiers.from_elem] at herr2 ⊢
        simp [herr2, Except.map, (by decide : ¬ (bs "rect" = bs "image"))]⟩
    · exact ⟨err, by
        simp [parse.object, hname, Identifiers.from_elem] at herr2 ⊢
        simp [herr2, Except.map]⟩
  · intro hname ev
    rcases hname with hname | hname
    · rcases hfe : Identifiers.from_elem element with err | ident <;>
        simp [parse.object, hname, hfe, Except.map,
          (by decide : ¬ (bs "rect" = bs "image"))]
    · rcases hfe : Identifiers.from_elem element with err | ident <;>
        simp [parse.object, hname, hfe, Except.map]
  · intro hnr hni
    simp [parse.object, hnr, hni]

/-- A valid placeholder rectangle element, for the C2 witness. -/
def c2RectElem : BytesStart :=
  ⟨bs "rect",
    [⟨bs "id", bs "r1"⟩, ⟨bs "width", bs "10"⟩, ⟨bs "height", bs "20"⟩]⟩

/-- A `rect` element missing its width and height, for the C2 witness. -/
def c2BadElem : BytesStart := ⟨bs "rect", [⟨bs "id", bs "r2"⟩]⟩

/-- An unrecognized element name, for the C2 witness. -/
def c2OtherElem : BytesStart := ⟨bs "circle", [⟨bs "r", bs "5"⟩]⟩

/-- Witness for C2: the three classifier behaviours at concrete elements. -/
theorem c2_classifier_witness :
    (∃ ident, parse.object c2RectElem = .ok (.rectangle ident c2RectElem)) ∧
    (∃ err, parse.object c2BadElem = .error err) ∧
    parse.object c2OtherElem = .ok (.other (.empty c2OtherElem)) := by
  refine ⟨?_, ?_, ?_⟩
  · refine (c2_classifier c2RectElem).1 rfl ?_ ?_ ?_ ?_
    · intro a ha
      simp only [c2RectElem, List.mem_cons, List.not_mem_nil, or_false] at ha
      rcases ha with rfl | rfl | rfl
      · exact ⟨fun hk => absurd hk (by decide), fun _ => ⟨"r1", rfl⟩⟩
      · exact ⟨fun _ => ⟨"10", _, rfl, rfl⟩, fun hk => absurd hk (by decide)⟩
      · exact ⟨fun _ => ⟨"20", _, rfl, rfl⟩, fun hk => absurd hk (by decide)⟩
    · exact ⟨⟨bs "width", bs "10"⟩, by simp [c2RectElem], rfl⟩
    · exact ⟨⟨bs "height", bs "20"⟩, by simp [c2RectElem], rfl⟩
    · exact ⟨⟨bs "id", bs "r1"⟩, by simp [c2RectElem], rfl⟩
  · refine (c2_classifier c2BadElem).2.2.1 (Or.inl rfl) (Or.inl ?_)
    rintro ⟨a, ha, hk⟩
    simp only [c2BadElem, List.mem_cons, List.not_mem_nil, or_false] at ha
    subst ha
    exact absurd hk (by decide)
  · exact (c2_classifier c2OtherElem).2.2.2.2 (by decide) (by decide)

/-! ## Claim C6 -/

theorem dimensionsContent_eq_find? (id : String) :
    ∀ c : List Object, dimensionsContent id c =
      ((c.find? (matchesId id)).bind identOf).map
        (fun ident => (ident.width, ident.height)) := by
  intro c
  induction c with
  | nil => rfl
  | cons o rest ih =>
    cases o with
    | rectangle ident e =>
      by_cases hid : ident.id = id
      · simp [dimensionsContent, hid, matchesId, identOf]
      · simp [dimensionsContent, hid, matchesId, identOf, ih]
    | image ident e =>
      by_cases hid : ident.id = id
      · simp [dimensionsContent, hid, matchesId, identOf]
      · simp [dimensionsContent, hid, matchesId, identOf, ih]
    | other ev =>
      simp [dimensionsContent, matchesId, ih]

theorem idToImageContent_isSome (id : String) (img : EncodedImage) :
    ∀ c : List Object, (idToImageContent id img c).isSome =
      (c.find? (matchesId id)).isSome := by
  intro c
  induction c with
  | nil => rfl
  | cons o rest ih =>
    cases o with
    | rectangle ident e =>
      by_cases hid : ident.id = id
      · simp [idToImageContent, hid, matchesId]
      · simp [idToImageContent, hid, matchesId, ih]
    | image ident e =>
      by_cases hid : ident.id = id
      · simp [idToImageContent, hid, matchesId]
      · simp [idToImageContent, hid, matchesId, ih]
    | other ev =>
      simp [idToImageContent, matchesId, ih]

theorem dimensionsLayers_eq_find? (id : String) :
    ∀ ls : List Layer, dimensionsLayers id ls =
      (((ls.flatMap fun l => l.content).find? (matchesId id)).bind identOf).map
        (fun ident => (ident.width, ident.height)) := by
  intro ls
  induction ls with
  | nil => rfl
  | cons l rest ih =>
    simp only [dimensionsLayers, List.flatMap_cons, List.find?_append]
    rcases hfind : l.content.find? (matchesId id) with _ | obj
    · have hdc : dimensionsContent id l.content = none := by
        simp [dimensionsContent_eq_find?, hfind]
      simp [hdc, ih, hfind]
    · have hdc : dimensionsContent id l.content =
          ((some obj).bind identOf).map (fun ident => (ident.width, ident.height)) := by
        simp [dimensionsContent_eq_find?, hfind]
      have hobj : ∃ ident, identOf obj = some ident := by
        have hm := List.find?_some hfind
        cases obj with
        | rectangle ident e => exact ⟨ident, rfl⟩
        | image ident e => exact ⟨ident, rfl⟩
        | other ev => simp [matchesId] at hm
      obtain ⟨ident, hident⟩ := hobj
      simp [hdc, hident, dimensionsLayers, Option.or]

theorem idToImageLayers_isSome (id : String) (img : EncodedImage) :
    ∀ ls : List Layer, (idToImageLayers id img ls).isSome =
      ((ls.flatMap fun l => l.content).find? (matchesId id)).isSome := by
  intro ls
  induction ls with
  | nil => rfl
  | cons l rest ih =>
    simp only [idToImageLayers, List.flatMap_cons, List.find?_append]
    rcases hc : idToImageContent id img l.content with _ | c2
    · have hfind : (l.content.find? (matchesId id)).isSome = false := by
        rw [← idToImageContent_isSome id img, hc]
        rfl
      rcases hfind2 : l.content.find? (matchesId id) with _ | obj
      · simp [ih, hfind2, Option.or]
      · rw [hfind2] at hfind
        simp at hfind
    · have hfind : (l.content.find? (matchesId id)).isSome = true := by
        rw [← idToImageContent_isSome id img, hc]
        rfl
      rcases hfind2 : l.content.find? (matchesId id) with _ | obj
      · rw [hfind2] at hfind
        simp at hfind
      · simp [hfind2, Option.or]

/-- C6: `dimensions` and `id_to_image` both resolve ids exactly as the
spec's `findById` scan does — linear over layers in document order and over
objects in order, matching only Rectangle/Image, acting on the first
match — and for an id with no match both return a `MissingId` error carrying
the id, with `id_to_image` leaving the document unchanged. -/
theorem c6_lookup (doc : Inkscape) (id : String) (img : EncodedImage) :
    (doc.dimensions id =
      match (findByIdSpec doc id).bind identOf with
      | some ident => .ok (ident.width, ident.height)
      | none => .error ⟨id⟩) ∧
    ((doc.id_to_image id img).1 =
      if (findByIdSpec doc id).isSome then .ok () else .error ⟨id⟩) ∧
    (findByIdSpec doc id = none →
      doc.id_to_image id img = (.error ⟨id⟩, doc) ∧
      doc.dimensions id = .error ⟨id⟩) := by
  have hdim : doc.dimensions id =
      match (findByIdSpec doc id).bind identOf with
      | some ident => .ok (ident.width, ident.height)
      | none => .error ⟨id⟩ := by
    unfold Inkscape.dimensions findByIdSpec
    rw [dimensionsLayers_eq_find? id doc.layers]
    rcases (doc.layers.flatMap fun l => l.content).find? (matchesId id) with _ | obj
    · rfl
    · rcases h2 : identOf obj with _ | ident <;> simp [h2]
  have himg : (doc.id_to_image id img).1 =
      if (findByIdSpec doc id).isSome then .ok () else .error ⟨id⟩ := by
    unfold Inkscape.id_to_image findByIdSpec
    have hs := idToImageLayers_isSome id img doc.layers
    rcases hl : idToImageLayers id img doc.layers with _ | ls2
    · rw [hl] at hs
      rw [← hs]
      rfl
    · rw [hl] at hs
      rw [← hs]
      rfl
  refine ⟨hdim, himg, ?_⟩
  intro hnone
  constructor
  · have hs := idToImageLayers_isSome id img doc.layers
    unfold findByIdSpec at hnone
    rw [hnone] at hs
    simp only [Option.isSome_none] at hs
    unfold Inkscape.id_to_image
    rcases hl : idToImageLayers id img doc.layers with _ | ls2
    · rfl
    · rw [hl] at hs
      simp at hs
  · rw [hdim, hnone]
    rfl

/-- A one-layer document with no placeholder objects, for the C6 witness. -/
def c6Doc : Inkscape :=
  ⟨[.other (bs "prologue")],
    [⟨"bg", "Background", .start c4Elem,
      [.other (.other (bs "text run"))], .endTag (bs "g")⟩],
    [.endTag (bs "svg")]⟩

/-- Witness for C6: a missing id fails both operations and leaves the
document unchanged. -/
theorem c6_lookup_witness :
    findByIdSpec c6Doc "nope" = none ∧
    c6Doc.id_to_image "nope" ⟨bs "payload"⟩ = (.error ⟨"nope"⟩, c6Doc) ∧
    c6Doc.dimensions "nope" = .error ⟨"nope"⟩ :=
  ⟨rfl,
    ((c6_lookup c6Doc "nope" ⟨bs "payload"⟩).2.2 rfl).1,
    ((c6_lookup c6Doc "nope" ⟨bs "payload"⟩).2.2 rfl).2⟩

/-! ## Claim C5 -/

theorem idToImageContent_none_of_nomatch (id : String) (img : EncodedImage)
    (c : List Object) (hno : ∀ o ∈ c, matchesId id o = false) :
    idToImageContent id img c = none := by
  have hfind : c.find? (matchesId id) = none :=
    List.find?_eq_none.mpr (fun o ho => by simp [hno o ho])
  have hs := idToImageContent_isSome id img c
  rw [hfind] at hs
  simp only [Option.isSome_none] at hs
  rcases hc : idToImageContent id img c with _ | c2
  · rfl
  · rw [hc] at hs
    simp at hs

theorem idToImageContent_replace_rect (id : String) (img : EncodedImage)
    (ident : Identifiers) (elem : BytesStart) (hident : ident.id = id) :
    ∀ (pre post : List Object), (∀ o ∈ pre, matchesId id o = false) →
      idToImageContent id img (pre ++ .rectangle ident elem :: post) =
        some (pre ++ .image ident (set_image_element elem img) :: post) := by
  intro pre
  induction pre with
  | nil =>
    intro post _
    simp [idToImageContent, hident]
  | cons o pre2 ih =>
    intro post hno
    have hno2 : ∀ b ∈ pre2, matchesId id b = false :=
      fun b hb => hno b (List.mem_cons_of_mem o hb)
    have hohead := hno o (List.mem_cons_self o pre2)
    have hrec := ih post hno2
    cases o with
    | rectangle i2 e2 =>
      have hne : ¬ i2.id = id := by
        simpa [matchesId] using hohead
      simp [idToImageContent, hne, hrec]
    | image i2 e2 =>
      have hne : ¬ i2.id = id := by
        simpa [matchesId] using hohead
      simp [idToImageContent, hne, hrec]
    | other ev =>
      simp [idToImageContent, hrec]

theorem idToImageContent_replace_image (id : String) (img : EncodedImage)
    (ident : Identifiers) (elem : BytesStart) (hident : ident.id = id) :
    ∀ (pre post : List Object), (∀ o ∈ pre, matchesId id o = false) →
      idToImageContent id img (pre ++ .image ident elem :: post) =
        some (pre ++ .image ident (update_image_element elem img) :: post) := by
  intro pre
  induction pre with
  | nil =>
    intro post _
    simp [idToImageContent, hident]
  | cons o pre2 ih =>
    intro post hno
    have hno2 : ∀ b ∈ pre2, matchesId id b = false :=
      fun b hb => hno b (List.mem_cons_of_mem o hb)
    have hohead := hno o (List.mem_cons_self o pre2)
    have hrec := ih post hno2
    cases o with
    | rectangle i2 e2 =>
      have hne : ¬ i2.id = id := by
        simpa [matchesId] using hohead
      simp [idToImageContent, hne, hrec]
    | image i2 e2 =>
      have hne : ¬ i2.id = id := by
        simpa [matchesId] using hohead
      simp [idToImageContent, hne, hrec]
    | other ev =>
      simp [idToImageContent, hrec]

theorem idToImageLayers_replace (id : String) (img : EncodedImage)
    (L : Layer) (c2 : List Object)
    (hc : idToImageContent id img L.content = some c2) :
    ∀ (lpre lpost : List Layer),
      (∀ l ∈ lpre, ∀ o ∈ l.content, matchesId id o = false) →
      idToImageLayers id img (lpre ++ L :: lpost) =
        some (lpre ++ { L with content := c2 } :: lpost) := by
  intro lpre
  induction lpre with
  | nil =>
    intro lpost _
    simp [idToImageLayers, hc]
  | cons l lpre2 ih =>
    intro lpost hno
    have hlc : idToImageContent id img l.content = none :=
      idToImageContent_none_of_nomatch id img l.content
        (hno l (List.mem_cons_self l lpre2))
    have hrec := ih lpost (fun b hb => hno b (List.mem_cons_of_mem l hb))
    simp [idToImageLayers, hlc, hrec]

theorem dimensionsContent_none_of_nomatch (id : String)
    (c : List Object) (hno : ∀ o ∈ c, matchesId id o = false) :
    dimensionsContent id c = none := by
  have hfind : c.find? (matchesId id) = none :=
    List.find?_eq_none.mpr (fun o ho => by simp [hno o ho])
  rw [dimensionsContent_eq_find?, hfind]
  rfl

theorem dimensionsContent_first_image (id : String) (ident : Identifiers)
    (elem : BytesStart) (hident : ident.id = id)
    (pre post : List Object) (hno : ∀ o ∈ pre, matchesId id o = false) :
    dimensionsContent id (pre ++ .image ident elem :: post) =
      some (ident.width, ident.height) := by
  have hfindpre : pre.find? (matchesId id) = none :=
    List.find?_eq_none.mpr (fun o ho => by simp [hno o ho])
  rw [dimensionsContent_eq_find?, List.find?_append, hfindpre]
  have hm : matchesId id (Object.image ident elem) = true := by
    simp [matchesId, hident]
  simp [List.find?_cons, hm, identOf, Option.or]

theorem dimensionsLayers_first (id : String) (L : Layer) (wh : F64 × F64)
    (hc : dimensionsContent id L.content = some wh) :
    ∀ (lpre lpost : List Layer),
      (∀ l ∈ lpre, ∀ o ∈ l.content, matchesId id o = false) →
      dimensionsLayers id (lpre ++ L :: lpost) = some wh := by
  intro lpre
  induction lpre with
  | nil =>
    intro lpost _
    simp [dimensionsLayers, hc]
  | cons l lpre2 ih =>
    intro lpost hno
    have hlc : dimensionsContent id l.content = none :=
      dimensionsContent_none_of_nomatch id l.content
        (hno l (List.mem_cons_self l lpre2))
    have hrec := ih lpost (fun b hb => hno b (List.mem_cons_of_mem l hb))
    simp [dimensionsLayers, hlc, hrec]

/-- C5: when the first id match in scan order is a Rectangle, `id_to_image`
succeeds and replaces exactly that object in place with an Image whose
element is renamed to `image`, has its `style` attribute dropped, keeps
every other attribute in order with `xlink:href` holding the payload
appended at the end, and whose Identity is copied unchanged; the prologue,
epilogue and every other layer and object are untouched; `dimensions` on
the result still returns the original width and height; and a second
`id_to_image` for the same id takes the update path on the promoted Image
(dropping `xlink:href` and appending a fresh one), not re-promotion. -/
theorem c5_assign_image (doc : Inkscape) (id : String) (img img2 : EncodedImage)
    (lpre lpost : List Layer) (L : Layer) (pre post : List Object)
    (ident : Identifiers) (elem : BytesStart)
    (hident : ident.id = id)
    (hlayers : doc.layers = lpre ++ L :: lpost)
    (hcontent : L.content = pre ++ .rectangle ident elem :: post)
    (hpre : ∀ o ∈ pre, matchesId id o = false)
    (hlpre : ∀ l ∈ lpre, ∀ o ∈ l.content, matchesId id o = false) :
    (doc.id_to_image id img).1 = .ok () ∧
    (doc.id_to_image id img).2.leading_events = doc.leading_events ∧
    (doc.id_to_image id img).2.trailing_events = doc.trailing_events ∧
    (doc.id_to_image id img).2.layers =
      lpre ++ { L with content := pre ++ .image ident (set_image_element elem img) :: post } :: lpost ∧
    (set_image_element elem img).name = bs "image" ∧
    (set_image_element elem img).atts =
      elem.atts.filter (fun a => a.key ≠ bs "style") ++
        [⟨bs "xlink:href", img.base64_bytes⟩] ∧
    (doc.id_to_image id img).2.dimensions id = .ok (ident.width, ident.height) ∧
    ((doc.id_to_image id img).2.id_to_image id img2).1 = .ok () ∧
    ((doc.id_to_image id img).2.id_to_image id img2).2.layers =
      lpre ++ { L with content := pre ++ .image ident (update_image_element (set_image_element elem img) img2) :: post } :: lpost := by
  have hc1 : idToImageContent id img L.content =
      some (pre ++ .image ident (set_image_element elem img) :: post) := by
    rw [hcontent]
    exact idToImageContent_replace_rect id img ident elem hident pre post hpre
  have hl1 : idToImageLayers id img doc.layers =
      some (lpre ++ { L with content := pre ++ .image ident (set_image_element elem img) :: post } :: lpost) := by
    rw [hlayers]
    exact idToImageLayers_replace id img L _ hc1 lpre lpost hlpre
  have hdoc1 : doc.id_to_image id img = (.ok (),
      { doc with layers := lpre ++ { L with content := pre ++ .image ident (set_image_element elem img) :: post } :: lpost }) := by
    unfold Inkscape.id_to_image
    rw [hl1]
  rw [hdoc1]
  refine ⟨rfl, rfl, rfl, rfl, rfl, rfl, ?_, ?_, ?_⟩
  · unfold Inkscape.dimensions
    have hd := dimensionsLayers_first id
      { L with content := pre ++ .image ident (set_image_element elem img) :: post }
      (ident.width, ident.height)
      (dimensionsContent_first_image id ident (set_image_element elem img)
        hident pre post hpre)
      lpre lpost hlpre
    simp only [hd]
  · have hc2 : idToImageContent id img2
        (pre ++ .image ident (set_image_element elem img) :: post) =
        some (pre ++ .image ident
          (update_image_element (set_image_element elem img) img2) :: post) :=
      idToImageContent_replace_image id img2 ident _ hident pre post hpre
    have hl2 := idToImageLayers_replace id img2
      { L with content := pre ++ .image ident (set_image_element elem img) :: post }
      _ hc2 lpre lpost hlpre
    unfold Inkscape.id_to_image
    simp only [hl2]
  · have hc2 : idToImageContent id img2
        (pre ++ .image ident (set_image_element elem img) :: post) =
        some (pre ++ .image ident
          (update_image_element (set_image_element elem img) img2) :: post) :=
      idToImageContent_replace_image id img2 ident _ hident pre post hpre
    have hl2 := idToImageLayers_replace id img2
      { L with content := pre ++ .image ident (set_image_element elem img) :: post }
      _ hc2 lpre lpost hlpre
    unfold Inkscape.id_to_image
    simp only [hl2]

/-- Identity of the concrete rectangle used in the C5 witness. -/
def c5Ident : Identifiers := ⟨"r1", .finite 10, .finite 20⟩

/-- First (non-matching) layer of the C5 witness document. -/
def c5Layer0 : Layer :=
  ⟨"l0", "Background", .start c4Elem, [.other (.other (bs "spacing"))],
    .endTag (bs "g")⟩

/-- Second layer of the C5 witness document, holding the rectangle. -/
def c5Layer1 : Layer :=
  ⟨"l1", "Content", .start c4Elem,
    [.other (.other (bs "lead")), .rectangle c5Ident c2RectElem,
      .other (.empty c2OtherElem)], .endTag (bs "g")⟩

/-- The C5 witness document. -/
def c5Doc : Inkscape :=
  ⟨[.other (bs "prologue")], [c5Layer0, c5Layer1], [.endTag (bs "svg")]⟩

/-- Opaque payloads for the C5 witness. -/
def c5Payload : EncodedImage := ⟨bs "data:image/png;base64,AAAA"⟩

/-- Second payload for the C5 witness update path. -/
def c5Payload2 : EncodedImage := ⟨bs "data:image/png;base64,BBBB"⟩

/-- Witness for C5 at a concrete document. -/
theorem c5_assign_image_witness :
    (c5Doc.id_to_image "r1" c5Payload).1 = .ok () ∧
    (c5Doc.id_to_image "r1" c5Payload).2.dimensions "r1" =
      .ok (c5Ident.width, c5Ident.height) ∧
    ((c5Doc.id_to_image "r1" c5Payload).2.id_to_image "r1" c5Payload2).1 =
      .ok () := by
  have h := c5_assign_image c5Doc "r1" c5Payload c5Payload2
    [c5Layer0] [] c5Layer1
    [.other (.other (bs "lead"))] [.other (.empty c2OtherElem)]
    c5Ident c2RectElem rfl rfl rfl
    (by intro o ho
        simp only [List.mem_singleton] at ho
        subst ho
        rfl)
    (by intro l hl o ho
        simp only [List.mem_singleton] at hl
        subst hl
        simp only [c5Layer0, List.mem_singleton] at ho
        subst ho
        rfl)
  exact ⟨h.1, h.2.2.2.2.2.2.1, h.2.2.2.2.2.2.2.1⟩

/-! ## Claim C7 -/

theorem IdIterator.next_of_groups_none {it : IdIterator}
    (h : it.groups.get? it.curr_group_idx = none) : it.next = none := by
  rw [IdIterator.next.eq_def]
  split
  · rfl
  · next group hg => rw [h] at hg; cases hg

theorem IdIterator.next_of_rect {it : IdIterator} {group : Layer}
    {ident : Identifiers} {e : BytesStart}
    (h : it.groups.get? it.curr_group_idx = some group)
    (h2 : group.content.get? it.curr_group_object_idx =
      some (.rectangle ident e)) :
    it.next = some (ident.id,
      { it with curr_group_object_idx := it.curr_group_object_idx + 1 }) := by
  rw [IdIterator.next.eq_def]
  split
  · next hg => rw [h] at hg; cases hg
  · next group2 hg =>
    rw [h] at hg
    obtain rfl : group = group2 := Option.some.inj hg
    split
    · next ident2 e2 h2b =>
      rw [h2] at h2b
      obtain ⟨h3, _⟩ := Object.rectangle.inj (Option.some.inj h2b)
      rw [h3]
    · next ident2 e2 h2b => rw [h2] at h2b; cases Option.some.inj h2b
    · next ev h2b => rw [h2] at h2b; cases Option.some.inj h2b
    · next h2b => rw [h2] at h2b; cases h2b

theorem IdIterator.next_of_image {it : IdIterator} {group : Layer}
    {ident : Identifiers} {e : BytesStart}
    (h : it.groups.get? it.curr_group_idx = some group)
    (h2 : group.content.get? it.curr_group_object_idx =
      some (.image ident e)) :
    it.next = some (ident.id,
      { it with curr_group_object_idx := it.curr_group_object_idx + 1 }) := by
  rw [IdIterator.next.eq_def]
  split
  · next hg => rw [h] at hg; cases hg
  · next group2 hg =>
    rw [h] at hg
    obtain rfl : group = group2 := Option.some.inj hg
    split
    · next ident2 e2 h2b => rw [h2] at h2b; cases Option.some.inj h2b
    · next ident2 e2 h2b =>
      rw [h2] at h2b
      obtain ⟨h3, _⟩ := Object.image.inj (Option.some.inj h2b)
      rw [h3]
    · next ev h2b => rw [h2] at h2b; cases Option.some.inj h2b
    · next h2b => rw [h2] at h2b; cases h2b

theorem IdIterator.next_of_other {it : IdIterator} {group : Layer}
    {ev : Event}
    (h : it.groups.get? it.curr_group_idx = some group)
    (h2 : group.content.get? it.curr_group_object_idx = some (.other ev)) :
    it.next =
      ({ it with curr_group_object_idx :=
        it.curr_group_object_idx + 1 } : IdIterator).next := by
  rw [IdIterator.next.eq_def]
  split
  · next hg => rw [h] at hg; cases hg
  · next group2 hg =>
    rw [h] at hg
    obtain rfl : group = group2 := Option.some.inj hg
    split
    · next ident2 e2 h2b => rw [h2] at h2b; cases Option.some.inj h2b
    · next ident2 e2 h2b => rw [h2] at h2b; cases Option.some.inj h2b
    · next ev2 h2b => rfl
    · next h2b => rw [h2] at h2b; cases h2b

theorem IdIterator.next_of_content_none {it : IdIterator} {group : Layer}
    (h : it.groups.get? it.curr_group_idx = some group)
    (h2 : group.content.get? it.curr_group_object_idx = none) :
    it.next =
      ({ it with
        curr_group_idx := it.curr_group_idx + 1
        curr_group_object_idx := 0 } : IdIterator).next := by
  rw [IdIterator.next.eq_def]
  split
  · next hg => rw [h] at hg; cases hg
  · next group2 hg =>
    rw [h] at hg
    obtain rfl : group = group2 := Option.some.inj hg
    split
    · next ident2 e2 h2b => rw [h2] at h2b; cases h2b
    · next ident2 e2 h2b => rw [h2] at h2b; cases h2b
    · next ev2 h2b => rw [h2] at h2b; cases h2b
    · next h2b => rfl

theorem IdIterator.toList_of_next_none {it : IdIterator}
    (h : it.next = none) : it.toList = [] := by
  rw [IdIterator.toList.eq_def]
  split
  · rfl
  · next s it2 hn => rw [h] at hn; cases hn

theorem IdIterator.toList_of_next_some {it it2 : IdIterator} {s : String}
    (h : it.next = some (s, it2)) : it.toList = s :: it2.toList := by
  rw [IdIterator.toList.eq_def]
  split
  · next hn => rw [h] at hn; cases hn
  · next s2 it3 hn =>
    rw [h] at hn
    obtain ⟨hs, hit⟩ := Prod.mk.inj (Option.some.inj hn)
    rw [hs, hit]

theorem IdIterator.toList_congr_next {it it2 : IdIterator}
    (h : it.next = it2.next) : it.toList = it2.toList := by
  rcases hn : it2.next with _ | ⟨s, it3⟩
  · rw [hn] at h
    rw [IdIterator.toList_of_next_none h, IdIterator.toList_of_next_none hn]
  · rw [hn] at h
    rw [IdIterator.toList_of_next_some h, IdIterator.toList_of_next_some hn]

theorem IdIterator.toList_eq_ids (n : Nat) :
    ∀ it : IdIterator, it.measure ≤ n →
      it.toList =
        (match it.groups.get? it.curr_group_idx with
          | none => []
          | some g => idsOfContent (g.content.drop it.curr_group_object_idx)) ++
          idsOfLayers (it.groups.drop (it.curr_group_idx + 1)) := by
  induction n with
  | zero =>
    intro it hle
    rcases hg : it.groups.get? it.curr_group_idx with _ | group
    · rw [IdIterator.toList_of_next_none (IdIterator.next_of_groups_none hg)]
      have hlen := List.get?_eq_none.mp hg
      have hdrop : it.groups.drop (it.curr_group_idx + 1) = [] :=
        List.drop_eq_nil_of_le (by omega)
      rw [hdrop]
      simp [idsOfLayers]
    · exfalso
      have hd := drop_of_get?_some it.groups it.curr_group_idx group hg
      have hpos : 0 < it.measure := by
        unfold IdIterator.measure contentLenAt
        rw [hd]
        have hg2 : it.groups[it.curr_group_idx]? = some group := by
          rw [← List.get?_eq_getElem?]
          exact hg
        simp [hg2, sumLen]
        omega
      omega
  | succ n ih =>
    intro it hle
    rcases hg : it.groups.get? it.curr_group_idx with _ | group
    · rw [IdIterator.toList_of_next_none (IdIterator.next_of_groups_none hg)]
      have hlen := List.get?_eq_none.mp hg
      have hdrop : it.groups.drop (it.curr_group_idx + 1) = [] :=
        List.drop_eq_nil_of_le (by omega)
      rw [hdrop]
      simp [idsOfLayers]
    · rcases hc : group.content.get? it.curr_group_object_idx with _ | obj
      · have hnext := IdIterator.next_of_content_none hg hc
        have hlt := measure_advance_lt it group hg (List.get?_eq_none.mp hc)
        rw [IdIterator.toList_congr_next hnext, ih _ (by omega)]
        have hdropc : group.content.drop it.curr_group_object_idx = [] :=
          List.drop_eq_nil_of_le (List.get?_eq_none.mp hc)
        rcases hg2 : it.groups.get? (it.curr_group_idx + 1) with _ | g2
        · have hlen2 := List.get?_eq_none.mp hg2
          have hdrop2 : it.groups.drop (it.curr_group_idx + 1) = [] :=
            List.drop_eq_nil_of_le (by omega)
          have hdrop3 : it.groups.drop (it.curr_group_idx + 2) = [] :=
            List.drop_eq_nil_of_le (by omega)
          simp [hg, hg2, hdropc, hdrop2, hdrop3, idsOfLayers, idsOfContent]
        · have hd2 := drop_of_get?_some it.groups (it.curr_group_idx + 1) g2 hg2
          simp only [hg, hg2, hdropc, idsOfContent]
          rw [hd2]
          simp [idsOfLayers]
      · cases obj with
        | rectangle ident e =>
          have hnext := IdIterator.next_of_rect hg hc
          have hlt := measure_bump_lt it group hg (List.get?_eq_some.mp hc).1
          rw [IdIterator.toList_of_next_some hnext, ih _ (by omega)]
          have hdc := drop_of_get?_some group.content it.curr_group_object_idx
            _ hc
          simp only [hg]
          rw [hdc]
          simp [idsOfContent]
        | image ident e =>
          have hnext := IdIterator.next_of_image hg hc
          have hlt := measure_bump_lt it group hg (List.get?_eq_some.mp hc).1
          rw [IdIterator.toList_of_next_some hnext, ih _ (by omega)]
          have hdc := drop_of_get?_some group.content it.curr_group_object_idx
            _ hc
          simp only [hg]
          rw [hdc]
          simp [idsOfContent]
        | other ev =>
          have hnext := IdIterator.next_of_other hg hc
          have hlt := measure_bump_lt it group hg (List.get?_eq_some.mp hc).1
          rw [IdIterator.toList_congr_next hnext, ih _ (by omega)]
          have hdc := drop_of_get?_some group.content it.curr_group_object_idx
            _ hc
          simp only [hg]
          rw [hdc]
          simp [idsOfContent]

/-- C7: `object_ids` starts a fresh cursor at the first object of the first
layer (so every call restarts from the beginning), and driving the iterator
to exhaustion yields exactly the ids of every Rectangle and Image object
across all layers in document order — `Other` objects and empty layers
contribute nothing — as one finite list. -/
theorem c7_object_ids (doc : Inkscape) :
    IdIterator.toList (doc.object_ids) = idsOfLayers doc.layers ∧
    doc.object_ids.curr_group_idx = 0 ∧
    doc.object_ids.curr_group_object_idx = 0 ∧
    doc.object_ids.groups = doc.layers := by
  refine ⟨?_, rfl, rfl, rfl⟩
  rw [IdIterator.toList_eq_ids (doc.object_ids).measure (doc.object_ids) le_rfl]
  rcases hl : doc.layers with _ | ⟨g, rest⟩ <;>
    simp [Inkscape.object_ids, hl, idsOfLayers]

/-! ## Claims C8 and C9 -/

theorem group_go_nil (name : String) :
    ∀ fuel, parse.group_go name fuel [] = none := by
  intro fuel
  induction fuel with
  | zero => rfl
  | succ n ih => simp [parse.group_go, readEvent, ih]

theorem leading_events_nil : ∀ fuel, parse.leading_events fuel [] = none := by
  intro fuel
  induction fuel with
  | zero => rfl
  | succ n ih => simp [parse.leading_events, readEvent, ih]

/-- The group-open tag of the unterminated layer "bg". -/
def c8Layer : BytesStart :=
  ⟨bs "g", [⟨bs "id", bs "bg"⟩, ⟨bs "inkscape:label", bs "bg"⟩]⟩

/-- A token stream that ends right after the open tag of layer "bg". -/
def c8Input : List Event := [.start c8Layer]

/-- C8: the claim states parsing fails with a "layer not terminated" error
naming the layer.  The content loop of `parse::group` has no arm for the
end-of-stream event — it wraps it as `Other`, pushes it into the layer
content and keeps reading — and its reader keeps yielding end-of-stream, so
the parse never returns at all (for every step budget): the
`MissingLayerEnd` error is reachable only through a failure of the
underlying reader, not through a stream that simply ends. -/
theorem c8_unterminated_layer_diverges :
    ∀ fuel, Inkscape.parse_svg fuel c8Input = none := by
  intro fuel
  cases fuel with
  | zero => rfl
  | succ n =>
    obtain ⟨f, hg1⟩ : ∃ f, parse.group (n + 1) c8Layer [] =
        (parse.group_go "bg" (n + 1) []).map f := ⟨_, rfl⟩
    have hg : parse.group (n + 1) c8Layer [] = none := by
      rw [hg1, group_go_nil]
      rfl
    have hlayers : parse.layers (n + 1) c8Layer [] = none := by
      unfold parse.layers
      rw [hg]
    have hlead : parse.leading_events (n + 1) c8Input =
        some ([], c8Layer, []) := rfl
    unfold Inkscape.parse_svg
    rw [hlead]
    simp [hlayers]

/-- A token stream holding a single non-group token and then ending. -/
def c9Input : List Event := [.other (bs "prologue text only")]

/-- C9: the claim states that a stream ending during the prologue phase,
with no layer-group open tag, parses successfully into a document with the
read tokens as prologue, zero layers and an empty epilogue, the
end-of-stream token not retained.  The loop of `parse::leading_events` has
no end-of-stream arm: it appends the end-of-stream event to the prologue
and reads again, and its reader keeps yielding end-of-stream, so the parse
never returns (for every step budget) — the zero-layer result is reachable
only through a failure of the underlying reader. -/
theorem c9_prologue_eof_diverges :
    (∀ fuel, Inkscape.parse_svg fuel [] = none) ∧
    (∀ fuel, Inkscape.parse_svg fuel c9Input = none) := by
  constructor
  · intro fuel
    unfold Inkscape.parse_svg
    rw [leading_events_nil fuel]
  · intro fuel
    unfold Inkscape.parse_svg
    cases fuel with
    | zero => rfl
    | succ n =>
      have hlead : parse.leading_events (n + 1) c9Input = none := by
        simp [parse.leading_events, readEvent, c9Input, leading_events_nil n]
      rw [hlead]

/-! ## Claim C1 -/

/-- Open tag of the first layer of the C1 input. -/
def c1LayerA : BytesStart :=
  ⟨bs "g", [⟨bs "id", bs "layerA"⟩, ⟨bs "inkscape:label", bs "A"⟩]⟩

/-- Open tag of the second layer of the C1 input. -/
def c1LayerB : BytesStart :=
  ⟨bs "g", [⟨bs "id", bs "layerB"⟩, ⟨bs "inkscape:label", bs "B"⟩]⟩

/-- A well-formed token stream: an `svg` open tag, two complete layers
separated by a whitespace text run, and the closing `svg` tag. -/
def c1Input : List Event :=
  [.start ⟨bs "svg", []⟩, .start c1LayerA, .endTag (bs "g"),
    .other (bs "\n  "), .start c1LayerB, .endTag (bs "g"), .endTag (bs "svg")]

/-- The document the parser produces from `c1Input`. -/
def c1Doc : Inkscape :=
  ⟨[.start ⟨bs "svg", []⟩],
    [⟨"layerA", "A", .start c1LayerA, [], .endTag (bs "g")⟩,
      ⟨"layerB", "B", .start c1LayerB, [], .endTag (bs "g")⟩],
    [.endTag (bs "svg")]⟩

/-- C1: the claim states that parse-then-serialize with no mutation replays
every token unchanged.  On `c1Input` the parse succeeds, but the loop of
`parse::layers` reads the whitespace text run between the two layers and
discards it (its only arms handle start and close tags), so serialization
emits six of the seven tokens: the round trip is not the identity. -/
theorem c1_roundtrip_fails :
    Inkscape.parse_svg 32 c1Input = some (.ok c1Doc) ∧
    Inkscape.write_svg c1Doc =
      [.start ⟨bs "svg", []⟩, .start c1LayerA, .endTag (bs "g"),
        .start c1LayerB, .endTag (bs "g"), .endTag (bs "svg")] ∧
    Inkscape.write_svg c1Doc ≠ c1Input ∧
    Event.other (bs "\n  ") ∈ c1Input ∧
    Event.other (bs "\n  ") ∉ Inkscape.write_svg c1Doc :=
  ⟨rfl, rfl, by decide, by decide, by decide⟩

/-- Witness for C7: the iterator over the C5 document yields exactly the id
of its one placeholder object. -/
theorem c7_object_ids_witness :
    IdIterator.toList (c5Doc.object_ids) = ["r1"] := by
  rw [(c7_object_ids c5Doc).1]
  rfl

/-- Witness for C8 at a concrete step budget. -/
theorem c8_unterminated_layer_diverges_witness :
    Inkscape.parse_svg 32 c8Input = none :=
  c8_unterminated_layer_diverges 32

/-- Witness for C9 at a concrete step budget. -/
theorem c9_prologue_eof_diverges_witness :
    Inkscape.parse_svg 32 [] = none ∧
    Inkscape.parse_svg 32 c9Input = none :=
  ⟨c9_prologue_eof_diverges.1 32, c9_prologue_eof_diverges.2 32⟩
